import Mathlib

/-!
Verification of the drcleaner markdown source-consolidation pipeline
(`src/drcleaner.py`).

Documents are modelled as `List Char`; character offsets into a document are
`Nat` indices.  The inline-citation marker grammar, the deduplication and
numbering of URLs, the backward span rewrite, the Sources section builder,
the citation-service client (`get_apa_citation`) and the memoized API call
(`_call_perplexity_api` under `joblib.Memory`) are each embedded as
executable definitions mirroring the Python source.  Python exceptions are
modelled with `Except Unit`; values that the runtime renders with `str` are
modelled as `List Char`.
-/

namespace DRCleaner

/-- A URL, kept verbatim as its character list (the dedup key). -/
abbrev Url := List Char

/-- Decimal digit character, `digitChar d` for `d < 10`. -/
def digitChar (d : Nat) : Char := Char.ofNat (48 + d)

/-- Accumulator loop producing the decimal digits of `n` (most significant
first), mirroring Python's `str(n)` for a nonnegative integer. -/
def natToCharsAux : Nat → Nat → List Char → List Char
  | 0, _, acc => acc
  | fuel + 1, n, acc =>
    if n < 10 then digitChar n :: acc
    else natToCharsAux fuel (n / 10) (digitChar (n % 10) :: acc)

/-- Decimal rendering of a natural number, as Python's `str(n)` /
f-string interpolation of an `int`. -/
def natToChars (n : Nat) : List Char := natToCharsAux (n + 1) n []

/-- One regex match of `SOURCE_PATTERN = r'\(\[([^\]]+)\]\(([^\)]+)\)\)'`:
the half-open span `[start, stop)` of the whole match in the document,
the display text (group 1) and the URL (group 2). -/
structure MatchRec where
  start : Nat
  stop : Nat
  text : List Char
  url : List Char
deriving DecidableEq, Repr

/-- Attempt to match `SOURCE_PATTERN` anchored at the head of `s`.
The pattern is `(` `[` text `]` `(` url `)` `)` with `text` a nonempty run
of characters other than `]` and `url` a nonempty run of characters other
than `)`; both runs are bounded by their terminator, so the regex engine's
match at a position is deterministic.  Returns the captured text, the
captured url, and the remainder of `s` after the match. -/
def tryMatch : List Char → Option (List Char × List Char × List Char)
  | c0 :: c1 :: rest =>
    if c0 = '(' ∧ c1 = '[' then
      let t := rest.takeWhile (fun c => c ≠ ']')
      if t = [] then none
      else
        match rest.dropWhile (fun c => c ≠ ']') with
        | d0 :: d1 :: rest2 =>
          if d0 = ']' ∧ d1 = '(' then
            let u := rest2.takeWhile (fun c => c ≠ ')')
            if u = [] then none
            else
              match rest2.dropWhile (fun c => c ≠ ')') with
              | e0 :: e1 :: tail =>
                if e0 = ')' ∧ e1 = ')' then some (t, u, tail) else none
              | _ => none
          else none
        | _ => none
    else none
  | _ => none

/-- Fuelled scan of the document, embedding `SOURCE_PATTERN.finditer`:
try an anchored match at the current position; on success emit the match
and continue after it (matches never overlap), otherwise advance one
character.  `fuel` only guards termination; `findIter` supplies enough
fuel to exhaust the document. -/
def findIterAux : Nat → List Char → Nat → List MatchRec
  | 0, _, _ => []
  | fuel + 1, s, pos =>
    (tryMatch s).elim
      (match s with
        | [] => []
        | _ :: rest => findIterAux fuel rest (pos + 1))
      (fun tur =>
        ⟨pos, pos + (tur.1.length + tur.2.1.length + 6), tur.1, tur.2.1⟩ ::
          findIterAux fuel (s.drop (tur.1.length + tur.2.1.length + 6))
            (pos + (tur.1.length + tur.2.1.length + 6)))

/-- All matches of `SOURCE_PATTERN` in the document, in document order,
with exact character spans (`list(SOURCE_PATTERN.finditer(content))`). -/
def findIter (s : List Char) : List MatchRec := findIterAux (s.length + 1) s 0

/-! ## Citation service client (`get_apa_citation`) -/

/-- The body of the HTTP response, as seen through `response.json()`:
`badJson` models a body on which `.json()` raises; `json choices err`
models a parsed dict, where `choices` is the optional `'choices'` list
(each element carrying the optional `['message']['content']` string, with
`none` modelling a missing key that makes the subscript raise) and `err`
is the optional `'error'` field consulted on non-200 statuses. -/
inductive RespBody where
  | badJson : RespBody
  | json : Option (List (Option (List Char))) → Option (List Char) → RespBody
deriving DecidableEq

/-- Outcome of the (cached) `_call_perplexity_api` call as observed inside
`get_apa_citation`'s `try` block: a raised exception (network error and the
like), a raised cache-layer I/O error from the `joblib.Memory` wrapper, or
an HTTP response with a status code and a body. -/
inductive ApiOutcome where
  | raised : ApiOutcome
  | cacheError : ApiOutcome
  | resp : Nat → RespBody → ApiOutcome
deriving DecidableEq

/-- Python `str.strip()`: remove leading and trailing whitespace. -/
def stripWs (l : List Char) : List Char :=
  ((l.dropWhile Char.isWhitespace).reverse.dropWhile Char.isWhitespace).reverse

/-- Index of the first occurrence of `pat` as a contiguous sublist of `s`
(the position at which `re.search` for a literal pattern matches). -/
def findSub (pat : List Char) : List Char → Option Nat
  | [] => if pat = [] then some 0 else none
  | s@(_ :: rest) =>
    if pat.isPrefixOf s then some 0 else (findSub pat rest).map (· + 1)

/-- Embedding of `re.search(r'\[\[\[(.*?)\]\]\]', citation, re.DOTALL)`:
the leftmost `[[[` that is followed by a `]]]`, capturing (lazily) the
characters strictly between the first such delimiter pair.  If the first
`[[[` has no closing `]]]` after it then no later one does either, so the
whole search fails. -/
def extractTriple (s : List Char) : Option (List Char) :=
  match findSub (("[[[".toList)) s with
  | none => none
  | some i =>
    let after := s.drop (i + 3)
    match findSub (("]]]".toList)) after with
    | none => none
    | some j => some (after.take j)

/-- Line 103-104: `if citation.startswith(("- ", "* ")): citation = citation[2:]`. -/
def listMarkerStrip (c : List Char) : List Char :=
  if (("- ".toList)).isPrefixOf c || (("* ".toList)).isPrefixOf c then c.drop 2 else c

/-- Lines 105-106: `if citation and citation[0].isdigit() and citation[1] == '.'
and citation[2] == ' ': citation = citation[3:]`.  Python evaluates the
conjunction left to right, so after `citation[0].isdigit()` succeeds the
subscripts `citation[1]` and `citation[2]` can raise `IndexError`, modelled
by `Except.error`. -/
def numMarkerStrip : List Char → Except Unit (List Char)
  | [] => .ok []
  | d :: rest =>
    if d.isDigit then
      match rest with
      | [] => .error ()
      | e :: rest2 =>
        if e = '.' then
          match rest2 with
          | [] => .error ()
          | f :: rest3 => if f = ' ' then .ok rest3 else .ok (d :: rest)
        else .ok (d :: rest)
    else .ok (d :: rest)

/-- The list-marker cleanup of lines 102-106, applied to an extracted
citation. -/
def postProcess (c : List Char) : Except Unit (List Char) :=
  numMarkerStrip (listMarkerStrip c)

/-- Lines 93-100: strip the raw message content, then replace it by the
(stripped) text between triple square brackets when such a delimiter pair
is present. -/
def extractedCitation (content : List Char) : List Char :=
  let citation := stripWs content
  match extractTriple citation with
  | some g => stripWs g
  | none => citation

/-- The full text-extraction-and-cleanup pipeline applied to the message
content of a successful response (lines 93-107). -/
def citationOfContent (content : List Char) : Except Unit (List Char) :=
  postProcess (extractedCitation content)

/-- Body of `get_apa_citation`'s `try` block (lines 88-121): compute the
returned string, or `Except.error` when a Python exception escapes the
block. -/
def getApaBody (url : Url) (r : ApiOutcome) : Except Unit (List Char) :=
  match r with
  | .raised => .error ()
  | .cacheError => .error ()
  | .resp status body =>
    if status = 200 then
      match body with
      | .badJson => .error ()
      | .json choices _ =>
        match choices with
        | some (first :: _) =>
          match first with
          | none => .error ()
          | some content => citationOfContent content
        | _ => .ok ((("[APA generation failed for URL: ".toList)) ++ url ++ (("]".toList)))
    else
      let msg := (("Perplexity API returned status code ".toList)) ++ natToChars status
      let msg :=
        match body with
        | .json _ (some e) => msg ++ ((": ".toList)) ++ e
        | _ => msg
      .ok ((("[APA generation failed for URL: ".toList)) ++ url
        ++ ((" - ".toList)) ++ msg ++ (("]".toList)))

/-- Embedding of `get_apa_citation(api_key, url)` (lines 79-125) given the outcome `r` of
its API call: the missing-key early return, the `try` block, and the
`except Exception` handler that converts any escaped exception into the
generic error placeholder. -/
def getApaCitation (hasKey : Bool) (url : Url) (r : ApiOutcome) : List Char :=
  if hasKey then
    match getApaBody url r with
    | .ok s => s
    | .error _ => (("[APA generation error for URL: ".toList)) ++ url ++ (("]".toList))
  else ("[Perplexity API not configured]".toList)

/-! ## Fetch cache (`joblib.Memory` around `_call_perplexity_api`) -/

/-- Key of the durable memoization: `joblib` keys the cached
`_call_perplexity_api` on its full argument tuple `(api_key, url, prompt)`. -/
structure CacheKey where
  apiKey : List Char
  url : Url
  prompt : List Char
deriving DecidableEq

/-- Lookup in the persisted cache store. -/
def cacheLookup : List (CacheKey × ApiOutcome) → CacheKey → Option ApiOutcome
  | [], _ => none
  | (k, v) :: rest, key => if k = key then some v else cacheLookup rest key

/-- True when the outcome of the wrapped call is a raised Python exception
(network error, cache-layer error) rather than a returned response. -/
def isException : ApiOutcome → Bool
  | .raised => true
  | .cacheError => true
  | .resp _ _ => false

/-- What `joblib.Memory` persists after running the wrapped function on a
cache miss: a returned response is written under its key, but a call that
raises writes nothing — the exception propagates to the caller and the
store is left unchanged, so the next identical call misses again. -/
def storeResult (key : CacheKey) (v : ApiOutcome)
    (cache : List (CacheKey × ApiOutcome)) : List (CacheKey × ApiOutcome) :=
  if isException v then cache else (key, v) :: cache

/-- A sequence of invocations of the memoized `_call_perplexity_api`,
threading the durable cache store through the calls.  `net t` is the
outcome of the `t`-th actual network request; on a miss the wrapped
function runs and only a returned response is persisted (`storeResult`).
Each trace element records the key, the outcome the caller observed, and
whether a network request was issued for it (`false` = cache hit). -/
def runCalls (net : Nat → ApiOutcome) :
    List CacheKey → List (CacheKey × ApiOutcome) → Nat → List (CacheKey × ApiOutcome × Bool)
  | [], _, _ => []
  | key :: rest, cache, t =>
    (cacheLookup cache key).elim
      ((key, net t, true) :: runCalls net rest (storeResult key (net t) cache) (t + 1))
      (fun v => (key, v, false) :: runCalls net rest cache t)

/-- Number of network-issuing calls for key `k` in a call trace. -/
def netCountK (k : CacheKey) (trace : List (CacheKey × ApiOutcome × Bool)) : Nat :=
  (trace.filter (fun e => e.1 = k && e.2.2)).length

/-- Number of network-issuing calls for key `k` whose outcome was a
returned response (the calls whose result `joblib` writes to the cache). -/
def respNetCountK (k : CacheKey) (trace : List (CacheKey × ApiOutcome × Bool)) : Nat :=
  (trace.filter (fun e => e.1 = k && e.2.2 && !(isException e.2.1))).length

/-- The error message built by the non-200 branch of `get_apa_citation`
(lines 112-118): the status-code text, extended with the response's
`'error'` field when the body parses and carries one. -/
def reasonOf (status : Nat) (body : RespBody) : List Char :=
  match body with
  | .json _ (some e) =>
    (("Perplexity API returned status code ".toList)) ++ natToChars status
      ++ ((": ".toList)) ++ e
  | _ => (("Perplexity API returned status code ".toList)) ++ natToChars status

/-! ## Resolver (`reformat_markdown`, lines 160-191) -/

/-- Value of one slot of the `unique_sources` ordered dict: the assigned
1-based number and the citation, `none` before the fetch completes. -/
structure Entry where
  number : Nat
  apa : Option (List Char)
deriving DecidableEq, Repr

/-- One step of the first-appearance deduplication: a URL already seen is
skipped, a new one is appended (insertion into the `OrderedDict`). -/
def insertUnique (seen : List Url) (u : Url) : List Url :=
  if u ∈ seen then seen else seen ++ [u]

/-- The keys of `unique_sources` after the scan of lines 160-164: unique
URLs in order of first appearance among the matches. -/
def uniqueUrls (urls : List Url) : List Url := urls.foldl insertUnique []

/-- The `unique_sources` dict after the numbering loop of lines 169-172:
each unique URL paired with its 1-based number (`n` is the running
`current_number`), citation not yet fetched. -/
def mkEntries : List Url → Nat → List (Url × Entry)
  | [], _ => []
  | u :: rest, n => (u, ⟨n, none⟩) :: mkEntries rest (n + 1)

/-- Line 187's guard: an empty citation string from `get_apa_citation` is
falsy in Python and is replaced by the failure placeholder. -/
def completionApa (fetch : Url → List Char) (u : Url) : List Char :=
  if fetch u = [] then (("[Failed to generate APA for ".toList)) ++ u ++ (("]".toList))
  else fetch u

/-- Write the fetched citation into the slot of URL `u`
(`unique_sources[url]['apa'] = ...`); the number is untouched. -/
def setApa (es : List (Url × Entry)) (u : Url) (v : List Char) : List (Url × Entry) :=
  es.map fun p => if p.1 = u then (p.1, ⟨p.2.number, some v⟩) else p

/-- The `as_completed` loop of lines 183-191: futures complete in the given
`order`, each writing only its own URL's citation slot. -/
def runCompletions (fetch : Url → List Char) : List Url → List (Url × Entry) → List (Url × Entry)
  | [], es => es
  | u :: rest, es => runCompletions fetch rest (setApa es u (completionApa fetch u))

/-- The fully resolved `unique_sources` dict: numbers assigned first
(before any fetch), then citations filled in completion order. -/
def resolveEntries (us : List Url) (order : List Url) (fetch : Url → List Char) :
    List (Url × Entry) :=
  runCompletions fetch order (mkEntries us 1)

/-- Dict lookup `unique_sources[url]` on the entry list. -/
def findEntry : List (Url × Entry) → Url → Option Entry
  | [], _ => none
  | (v, e) :: rest, u => if v = u then some e else findEntry rest u

/-! ## Rewriter (`reformat_markdown`, lines 196-237) -/

/-- The inline replacement token `f'[[{number}]](#source-{number})'`. -/
def refToken (n : Nat) : List Char :=
  (("[[".toList)) ++ natToChars n ++ (("]](#source-".toList)) ++ natToChars n ++ ((")".toList))

/-- One iteration of the replacement loop (lines 198-208): splice the
reference token for the match's URL over the match's span; a URL missing
from the dict leaves the text unchanged (the warned-about branch). -/
def replaceMatch (es : List (Url × Entry)) (m : MatchRec) (acc : List Char) : List Char :=
  match findEntry es m.url with
  | some e => acc.take m.start ++ refToken e.number ++ acc.drop m.stop
  | none => acc

/-- The whole replacement loop: `for match in reversed(matches)` processes
the matches from the last document position to the first, so a fold from
the right over the matches in document order. -/
def rewriteInline (es : List (Url × Entry)) (ms : List MatchRec) (content : List Char) :
    List Char :=
  ms.foldr (replaceMatch es) content

/-- Python `str.rstrip()`: remove trailing whitespace (line 224). -/
def rstripWs (l : List Char) : List Char :=
  (l.reverse.dropWhile Char.isWhitespace).reverse

/-- One line of the Sources list,
`f'<a id="source-{number}"></a>{number}. {apa}\n'`; a still-unset citation
is rendered as Python renders `None`. -/
def anchorEntry (n : Nat) (apaOpt : Option (List Char)) : List Char :=
  let apa := match apaOpt with
    | some s => s
    | none => ("None".toList)
  (("<a id=\"source-".toList)) ++ natToChars n ++ (("\"></a>".toList))
    ++ natToChars n ++ ((". ".toList)) ++ apa ++ (("\n".toList))

/-- Stable insertion of an entry after all entries with a smaller-or-equal
number. -/
def insertByNumber (a : Url × Entry) : List (Url × Entry) → List (Url × Entry)
  | [] => [a]
  | b :: bs => if b.2.number ≤ a.2.number then b :: insertByNumber a bs else a :: b :: bs

/-- Embedding of `sorted(unique_sources.items(), key=...number)` (line 229);
the numbers are pairwise distinct, so any correct sort agrees with
Python's stable sort. -/
def sortByNumber : List (Url × Entry) → List (Url × Entry)
  | [] => []
  | a :: rest => insertByNumber a (sortByNumber rest)

/-- The appended Sources section (lines 227-235): the heading block
followed by the newline-terminated anchor lines in number order. -/
def sourcesSection (es : List (Url × Entry)) : List Char :=
  (("\n\n# Sources\n\n".toList))
    ++ ((sortByNumber es).map (fun p => anchorEntry p.2.number p.2.apa)).flatten

/-- The whole `reformat_markdown` pipeline on an already-read document
(lines 127-241): `none` models returning without writing an output file
(missing API key, or no source patterns found); `some out` models writing
`out` to the output file.  `order` is the order in which the parallel
fetches complete. -/
def reformatMarkdown (hasKey : Bool) (content : List Char) (order : List Url)
    (fetch : Url → List Char) : Option (List Char) :=
  if hasKey then
    let ms := findIter content
    if ms = [] then none
    else
      let us := uniqueUrls (ms.map MatchRec.url)
      let es := resolveEntries us order fetch
      let modified := rewriteInline es ms content
      some (rstripWs modified ++ sourcesSection es)
  else none

/-- Canonical spliced form of the rewritten text: the untouched segments of
the original document interleaved with the replacement tokens, one token
per span.  `spliced content occs p` assumes the spans in `occs` lie at or
after position `p`. -/
def spliced (content : List Char) : List (Nat × Nat × List Char) → Nat → List Char
  | [], p => content.drop p
  | (s, e, tok) :: rest, p => ((content.take s).drop p) ++ tok ++ spliced content rest e

/-- The spans of a match list. -/
def spansOf (ms : List MatchRec) : List (Nat × Nat) := ms.map fun m => (m.start, m.stop)

/-- Predicate `chainedSpans len p l`: the spans in `l` are well-formed (`start ≤ stop`),
pairwise non-overlapping, in ascending document order, all at or after
position `p` and ending at or before `len`. -/
def chainedSpans (len : Nat) : Nat → List (Nat × Nat) → Bool
  | p, [] => decide (p ≤ len)
  | p, (s, e) :: rest => decide (p ≤ s) && decide (s ≤ e) && chainedSpans len e rest

/-- First-appearance index of `u` in a URL list. -/
def idxOf : List Url → Url → Nat
  | [], _ => 0
  | v :: rest, u => if v = u then 0 else idxOf rest u + 1

/-- The 1-based number the resolver assigns to URL `u`. -/
def numberOf (us : List Url) (u : Url) : Nat := idxOf us u + 1

/-- The replacement edits of a document: for each match, its span together
with the reference token of its URL's assigned number. -/
def tokenOccs (us : List Url) (ms : List MatchRec) : List (Nat × Nat × List Char) :=
  ms.map fun m => (m.start, m.stop, refToken (numberOf us m.url))

/-- Closed form of the resolved `unique_sources` dict once every fetch has
completed: URLs in first-appearance order, numbered from `n`, each carrying
its own fetched citation. -/
def charEntries (fetch : Url → List Char) : List Url → Nat → List (Url × Entry)
  | [], _ => []
  | u :: rest, n => (u, ⟨n, some (completionApa fetch u)⟩) :: charEntries fetch rest (n + 1)

/-- Split a character list on a separator character; adjacent separators
yield empty fields, so a blank line inside a text shows up as an empty
field of `splitOnChar` at a newline. -/
def splitOnChar (sep : Char) : List Char → List (List Char)
  | [] => [[]]
  | c :: rest =>
    if c = sep then [] :: splitOnChar sep rest
    else
      match splitOnChar sep rest with
      | [] => [[c]]
      | h :: t => (c :: h) :: t

/-- One Sources line without its terminating newline: the anchor tag with
id `source-N` followed by `N. citation`. -/
def entryLine (n : Nat) (apa : List Char) : List Char :=
  (("<a id=\"source-".toList)) ++ natToChars n ++ (("\"></a>".toList))
    ++ natToChars n ++ ((". ".toList)) ++ apa

/-- Modelled from the spec's words for the amended C8: strip one leading
`"- "` or `"* "` list marker; then if what remains is `digit '.' ' '
rest`, drop that numeric prefix; a remaining lone digit, or a digit
followed only by `'.'`, makes the bounds-violating index raise; anything
else is returned unchanged. -/
def specPostProcess (c : List Char) : Except Unit (List Char) :=
  let c1 := if (("- ".toList)).isPrefixOf c || (("* ".toList)).isPrefixOf c then c.drop 2 else c
  match c1 with
  | [] => .ok c1
  | [d] => if d.isDigit then .error () else .ok c1
  | [d, e] => if d.isDigit && e = '.' then .error () else .ok c1
  | d :: e :: f :: rest =>
    if d.isDigit && e = '.' && f = ' ' then .ok rest else .ok c1

/-! ## Structural lemmas about the extractor -/

theorem tryMatch_spec {s t u rem : List Char} (h : tryMatch s = some (t, u, rem)) :
    s.length = t.length + u.length + 6 + rem.length := by
  match s with
  | [] => simp [tryMatch] at h
  | [c] => simp [tryMatch] at h
  | c0 :: c1 :: rest =>
    simp only [tryMatch] at h
    split at h
    case isFalse => exact absurd h (by simp)
    case isTrue =>
      split at h
      case isTrue => exact absurd h (by simp)
      case isFalse ht =>
        have hrest : rest.takeWhile (fun c => c ≠ ']') ++ rest.dropWhile (fun c => c ≠ ']') = rest :=
          List.takeWhile_append_dropWhile _ _
        split at h
        case h_2 => exact absurd h (by simp)
        case h_1 d0 d1 rest2 heq1 =>
          split at h
          case isFalse => exact absurd h (by simp)
          case isTrue =>
            split at h
            case isTrue => exact absurd h (by simp)
            case isFalse hu =>
              have hrest2 :
                  rest2.takeWhile (fun c => c ≠ ')') ++ rest2.dropWhile (fun c => c ≠ ')') = rest2 :=
                List.takeWhile_append_dropWhile _ _
              split at h
              case h_2 => exact absurd h (by simp)
              case h_1 e0 e1 tail heq2 =>
                split at h
                case isFalse => exact absurd h (by simp)
                case isTrue =>
                  obtain ⟨rfl, rfl, rfl⟩ := Option.some.inj h
                  have h1 : rest.length =
                      (rest.takeWhile (fun c => c ≠ ']')).length + (d0 :: d1 :: rest2).length := by
                    rw [← heq1, ← congrArg List.length hrest, List.length_append]
                  have h2 : rest2.length =
                      (rest2.takeWhile (fun c => c ≠ ')')).length + (e0 :: e1 :: rem).length := by
                    rw [← heq2, ← congrArg List.length hrest2, List.length_append]
                  simp only [List.length_cons] at h1 h2 ⊢
                  omega

theorem chainedSpans_le {len : Nat} :
    ∀ {l : List (Nat × Nat)} {p : Nat}, chainedSpans len p l = true → p ≤ len := by
  intro l
  induction l with
  | nil =>
    intro p h
    simpa [chainedSpans] using h
  | cons a rest ih =>
    intro p h
    obtain ⟨s, e⟩ := a
    simp only [chainedSpans, Bool.and_eq_true, decide_eq_true_eq] at h
    exact le_trans (le_trans h.1.1 h.1.2) (ih h.2)

theorem chainedSpans_mono {len p q : Nat} (hq : q ≤ p) :
    ∀ {l : List (Nat × Nat)}, chainedSpans len p l = true → chainedSpans len q l = true := by
  intro l h
  cases l with
  | nil =>
    simp only [chainedSpans, decide_eq_true_eq] at h ⊢
    omega
  | cons a rest =>
    obtain ⟨s, e⟩ := a
    simp only [chainedSpans, Bool.and_eq_true, decide_eq_true_eq] at h ⊢
    exact ⟨⟨le_trans hq h.1.1, h.1.2⟩, h.2⟩

theorem findIterAux_chained :
    ∀ (fuel : Nat) (s : List Char) (pos : Nat),
      chainedSpans (pos + s.length) pos (spansOf (findIterAux fuel s pos)) = true := by
  intro fuel
  induction fuel with
  | zero =>
    intro s pos
    simp [findIterAux, spansOf, chainedSpans]
  | succ fuel ih =>
    intro s pos
    cases htm : tryMatch s with
    | some tur =>
      obtain ⟨t, u, rem⟩ := tur
      rw [findIterAux.eq_def]
      simp only [htm, Option.elim]
      have hlen := tryMatch_spec htm
      have h2 := ih (s.drop (t.length + u.length + 6)) (pos + (t.length + u.length + 6))
      rw [List.length_drop] at h2
      have hb : pos + (t.length + u.length + 6) + (s.length - (t.length + u.length + 6))
          = pos + s.length := by omega
      rw [hb] at h2
      simp only [spansOf, List.map_cons, chainedSpans, Bool.and_eq_true, decide_eq_true_eq]
      exact ⟨⟨Nat.le_refl pos, Nat.le_add_right pos _⟩, h2⟩
    | none =>
      cases s with
      | nil =>
        rw [findIterAux.eq_def]
        simp [spansOf, chainedSpans]
      | cons c rest =>
        rw [findIterAux.eq_def]
        simp only [htm, Option.elim]
        have h2 := ih rest (pos + 1)
        have hb : pos + 1 + rest.length = pos + (c :: rest).length := by
          simp only [List.length_cons]
          omega
        rw [hb] at h2
        exact chainedSpans_mono (Nat.le_succ pos) h2

theorem findIter_chained (content : List Char) :
    chainedSpans content.length 0 (spansOf (findIter content)) = true := by
  have h := findIterAux_chained (content.length + 1) content 0
  simpa using h

/-! ## The backward rewrite equals the canonical splices -/

theorem foldr_replace_spliced (content : List Char) :
    ∀ (occs : List (Nat × Nat × List Char)) (p : Nat),
      chainedSpans content.length p (occs.map (fun o => (o.1, o.2.1))) = true →
      occs.foldr (fun o acc => acc.take o.1 ++ o.2.2 ++ acc.drop o.2.1) content
        = content.take p ++ spliced content occs p := by
  intro occs
  induction occs with
  | nil =>
    intro p _
    simp only [List.foldr_nil, spliced]
    exact (List.take_append_drop p content).symm
  | cons o rest ih =>
    intro p h
    obtain ⟨s, e, tok⟩ := o
    simp only [List.map_cons, chainedSpans, Bool.and_eq_true, decide_eq_true_eq] at h
    obtain ⟨⟨hps, hse⟩, hrest⟩ := h
    have heLen : e ≤ content.length := chainedSpans_le hrest
    have ihe := ih e hrest
    simp only [List.foldr_cons, spliced]
    rw [ihe]
    have hTakeLen : (content.take e).length = e := by
      rw [List.length_take]
      omega
    have hDrop : (content.take e ++ spliced content rest e).drop e = spliced content rest e := by
      have hd := List.drop_left (content.take e) (spliced content rest e)
      rwa [hTakeLen] at hd
    have hTake : (content.take e ++ spliced content rest e).take s = content.take s := by
      rw [List.take_append_of_le_length (by omega), List.take_take]
      congr 1
      omega
    rw [hDrop, hTake]
    have hSplit : content.take s = content.take p ++ (content.take s).drop p := by
      have hts : (content.take s).take p = content.take p := by
        rw [List.take_take]
        congr 1
        omega
      conv_lhs => rw [← List.take_append_drop p (content.take s)]
      rw [hts]
    nth_rewrite 1 [hSplit]
    simp [List.append_assoc]

/-! ## Resolver characterization -/

theorem runCompletions_eq_map (fetch : Url → List Char) :
    ∀ (order : List Url) (es : List (Url × Entry)),
      runCompletions fetch order es
        = es.map (fun p =>
            if p.1 ∈ order then (p.1, ⟨p.2.number, some (completionApa fetch p.1)⟩) else p) := by
  intro order
  induction order with
  | nil =>
    intro es
    simp [runCompletions]
  | cons u rest ih =>
    intro es
    simp only [runCompletions]
    rw [ih]
    simp only [setApa, List.map_map]
    apply List.map_congr_left
    intro p _
    by_cases hpu : p.1 = u
    · by_cases hpr : p.1 ∈ rest <;>
        simp [Function.comp, hpu, hpr, List.mem_cons, completionApa]
    · by_cases hpr : p.1 ∈ rest <;>
        simp [Function.comp, hpu, hpr, List.mem_cons]

theorem mkEntries_resolved (fetch : Url → List Char) (order : List Url) :
    ∀ (us : List Url) (n : Nat), (∀ u ∈ us, u ∈ order) →
      (mkEntries us n).map (fun p =>
          if p.1 ∈ order then (p.1, ⟨p.2.number, some (completionApa fetch p.1)⟩) else p)
        = charEntries fetch us n := by
  intro us
  induction us with
  | nil =>
    intro n _
    simp [mkEntries, charEntries]
  | cons u rest ih =>
    intro n hsub
    have hu : u ∈ order := hsub u (List.mem_cons_self u rest)
    simp only [mkEntries, charEntries, List.map_cons, if_pos hu]
    rw [ih (n + 1) (fun v hv => hsub v (List.mem_cons_of_mem u hv))]

theorem resolveEntries_char (fetch : Url → List Char) (us order : List Url)
    (hsub : ∀ u ∈ us, u ∈ order) :
    resolveEntries us order fetch = charEntries fetch us 1 := by
  unfold resolveEntries
  rw [runCompletions_eq_map]
  exact mkEntries_resolved fetch order us 1 hsub

theorem charEntries_number (fetch : Url → List Char) :
    ∀ (us : List Url) (n : Nat),
      (charEntries fetch us n).map (fun p => p.2.number) = List.range' n us.length := by
  intro us
  induction us with
  | nil =>
    intro n
    simp [charEntries]
  | cons u rest ih =>
    intro n
    simp only [charEntries, List.map_cons, List.length_cons, List.range'_succ]
    rw [ih (n + 1)]

theorem mkEntries_number :
    ∀ (us : List Url) (n : Nat),
      (mkEntries us n).map (fun p => p.2.number) = List.range' n us.length := by
  intro us
  induction us with
  | nil =>
    intro n
    simp [mkEntries]
  | cons u rest ih =>
    intro n
    simp only [mkEntries, List.map_cons, List.length_cons, List.range'_succ]
    rw [ih (n + 1)]

theorem resolve_number_eq_mk (fetch : Url → List Char) (us order : List Url) :
    (resolveEntries us order fetch).map (fun p => (p.1, p.2.number))
      = (mkEntries us 1).map (fun p => (p.1, p.2.number)) := by
  unfold resolveEntries
  rw [runCompletions_eq_map, List.map_map]
  apply List.map_congr_left
  intro p _
  by_cases hp : p.1 ∈ order <;> simp [Function.comp, hp]

/-! ## First-appearance deduplication -/

theorem mem_foldl_insertUnique :
    ∀ (l : List Url) (acc : List Url) (u : Url),
      u ∈ l.foldl insertUnique acc ↔ u ∈ acc ∨ u ∈ l := by
  intro l
  induction l with
  | nil =>
    intro acc u
    simp
  | cons v rest ih =>
    intro acc u
    simp only [List.foldl_cons, ih, List.mem_cons]
    unfold insertUnique
    by_cases hv : v ∈ acc
    · simp only [if_pos hv]
      constructor
      · rintro (h | h)
        · exact Or.inl h
        · exact Or.inr (Or.inr h)
      · rintro (h | rfl | h)
        · exact Or.inl h
        · exact Or.inl hv
        · exact Or.inr h
    · simp only [if_neg hv, List.mem_append, List.mem_singleton]
      tauto

theorem nodup_foldl_insertUnique :
    ∀ (l : List Url) (acc : List Url), acc.Nodup → (l.foldl insertUnique acc).Nodup := by
  intro l
  induction l with
  | nil =>
    intro acc h
    simpa using h
  | cons v rest ih =>
    intro acc h
    simp only [List.foldl_cons]
    apply ih
    unfold insertUnique
    by_cases hv : v ∈ acc
    · simpa [if_pos hv] using h
    · rw [if_neg hv, List.nodup_append]
      refine ⟨h, List.nodup_singleton v, ?_⟩
      intro x hx hx1
      rw [List.mem_singleton] at hx1
      exact hv (hx1 ▸ hx)

theorem uniqueUrls_mem (l : List Url) (u : Url) : u ∈ uniqueUrls l ↔ u ∈ l := by
  unfold uniqueUrls
  rw [mem_foldl_insertUnique]
  simp

theorem uniqueUrls_nodup (l : List Url) : (uniqueUrls l).Nodup :=
  nodup_foldl_insertUnique l [] List.nodup_nil

/-! ## Entry lookup, sorting, and the inline rewrite -/

theorem findEntry_charEntries (fetch : Url → List Char) :
    ∀ (us : List Url) (n : Nat) (u : Url), u ∈ us →
      findEntry (charEntries fetch us n) u
        = some ⟨n + idxOf us u, some (completionApa fetch u)⟩ := by
  intro us
  induction us with
  | nil =>
    intro n u hu
    simp at hu
  | cons v rest ih =>
    intro n u hu
    by_cases hvu : v = u
    · subst hvu
      simp [charEntries, findEntry, idxOf]
    · have hur : u ∈ rest := by
        rcases List.mem_cons.mp hu with h | h
        · exact absurd h.symm hvu
        · exact h
      simp only [charEntries, findEntry, if_neg hvu, idxOf]
      rw [ih (n + 1) u hur]
      have hn : n + (idxOf rest u + 1) = n + 1 + idxOf rest u := by omega
      rw [hn]

theorem insertByNumber_front (fetch : Url → List Char) (a : Url × Entry) :
    ∀ (us : List Url) (n : Nat), a.2.number < n →
      insertByNumber a (charEntries fetch us n) = a :: charEntries fetch us n := by
  intro us
  cases us with
  | nil =>
    intro n _
    simp [charEntries, insertByNumber]
  | cons u rest =>
    intro n h
    simp only [charEntries, insertByNumber]
    rw [if_neg (by omega)]

theorem sortByNumber_charEntries (fetch : Url → List Char) :
    ∀ (us : List Url) (n : Nat),
      sortByNumber (charEntries fetch us n) = charEntries fetch us n := by
  intro us
  induction us with
  | nil =>
    intro n
    simp [charEntries, sortByNumber]
  | cons u rest ih =>
    intro n
    simp only [charEntries, sortByNumber]
    rw [ih (n + 1), insertByNumber_front fetch _ rest (n + 1) (by simp)]

theorem rewriteInline_foldr (fetch : Url → List Char) (us : List Url) (content : List Char) :
    ∀ (ms : List MatchRec), (∀ m ∈ ms, m.url ∈ us) →
      rewriteInline (charEntries fetch us 1) ms content
        = ms.foldr (fun m acc =>
            acc.take m.start ++ refToken (numberOf us m.url) ++ acc.drop m.stop) content := by
  intro ms
  unfold rewriteInline
  induction ms with
  | nil =>
    intro _
    rfl
  | cons m rest ih =>
    intro hmem
    simp only [List.foldr_cons]
    rw [← ih (fun x hx => hmem x (List.mem_cons_of_mem m hx))]
    unfold replaceMatch
    rw [findEntry_charEntries fetch us 1 m.url (hmem m (List.mem_cons_self m rest))]
    have hnum : 1 + idxOf us m.url = numberOf us m.url := by
      unfold numberOf
      omega
    simp only [hnum]

theorem rewriteInline_spliced (fetch : Url → List Char) (us : List Url) (content : List Char)
    (ms : List MatchRec) (hmem : ∀ m ∈ ms, m.url ∈ us)
    (hchained : chainedSpans content.length 0 (spansOf ms) = true) :
    rewriteInline (charEntries fetch us 1) ms content
      = spliced content (tokenOccs us ms) 0 := by
  have hspans : (tokenOccs us ms).map (fun o => (o.1, o.2.1)) = spansOf ms := by
    unfold tokenOccs spansOf
    rw [List.map_map]
    rfl
  have hrepl := foldr_replace_spliced content (tokenOccs us ms) 0 (by rw [hspans]; exact hchained)
  rw [rewriteInline_foldr fetch us content ms hmem]
  unfold tokenOccs at hrepl ⊢
  rw [List.foldr_map] at hrepl
  simpa using hrepl

/-! ## Pipeline characterization -/

theorem findIter_url_mem (content : List Char) :
    ∀ m ∈ findIter content, m.url ∈ uniqueUrls ((findIter content).map MatchRec.url) := by
  intro m hm
  rw [uniqueUrls_mem]
  exact List.mem_map_of_mem MatchRec.url hm

theorem reformatMarkdown_char (content : List Char) (order : List Url) (fetch : Url → List Char)
    (hne : findIter content ≠ [])
    (hsub : ∀ u ∈ uniqueUrls ((findIter content).map MatchRec.url), u ∈ order) :
    reformatMarkdown true content order fetch
      = some (rstripWs (spliced content
            (tokenOccs (uniqueUrls ((findIter content).map MatchRec.url)) (findIter content)) 0)
          ++ sourcesSection
              (charEntries fetch (uniqueUrls ((findIter content).map MatchRec.url)) 1)) := by
  unfold reformatMarkdown
  rw [if_pos rfl, if_neg hne]
  dsimp only
  rw [resolveEntries_char fetch (uniqueUrls ((findIter content).map MatchRec.url)) order hsub,
    rewriteInline_spliced fetch (uniqueUrls ((findIter content).map MatchRec.url)) content
      (findIter content) (findIter_url_mem content) (findIter_chained content)]

theorem charEntries_fst (fetch : Url → List Char) :
    ∀ (us : List Url) (n : Nat), (charEntries fetch us n).map Prod.fst = us := by
  intro us
  induction us with
  | nil =>
    intro n
    simp [charEntries]
  | cons u rest ih =>
    intro n
    simp only [charEntries, List.map_cons]
    rw [ih (n + 1)]

theorem charEntries_length (fetch : Url → List Char) (us : List Url) (n : Nat) :
    (charEntries fetch us n).length = us.length := by
  have h := congrArg List.length (charEntries_fst fetch us n)
  simpa using h

theorem charEntries_apa (fetch : Url → List Char) :
    ∀ (us : List Url) (n : Nat) (p : Url × Entry), p ∈ charEntries fetch us n →
      p.2.apa = some (completionApa fetch p.1) := by
  intro us
  induction us with
  | nil =>
    intro n p hp
    simp [charEntries] at hp
  | cons u rest ih =>
    intro n p hp
    rcases List.mem_cons.mp hp with h | h
    · subst h
      rfl
    · exact ih (n + 1) p h

/-! ## Digit strings and line structure of the Sources section -/

theorem digitChar_isDigit (d : Nat) (h : d < 10) : (digitChar d).isDigit = true := by
  interval_cases d <;> decide

theorem mem_natToCharsAux :
    ∀ (fuel n : Nat) (acc : List Char) (c : Char),
      c ∈ natToCharsAux fuel n acc → c ∈ acc ∨ c.isDigit = true := by
  intro fuel
  induction fuel with
  | zero =>
    intro n acc c h
    exact Or.inl h
  | succ fuel ih =>
    intro n acc c h
    rw [natToCharsAux] at h
    by_cases hn : n < 10
    · rw [if_pos hn] at h
      rcases List.mem_cons.mp h with h | h
      · exact Or.inr (h ▸ digitChar_isDigit n hn)
      · exact Or.inl h
    · rw [if_neg hn] at h
      rcases ih (n / 10) (digitChar (n % 10) :: acc) c h with h | h
      · rcases List.mem_cons.mp h with h | h
        · exact Or.inr (h ▸ digitChar_isDigit (n % 10) (Nat.mod_lt n (by omega)))
        · exact Or.inl h
      · exact Or.inr h

theorem mem_natToChars_isDigit (n : Nat) (c : Char) (h : c ∈ natToChars n) :
    c.isDigit = true := by
  rcases mem_natToCharsAux (n + 1) n [] c h with h | h
  · simp at h
  · exact h

theorem newline_not_mem_natToChars (n : Nat) : ('\n' : Char) ∉ natToChars n := by
  intro h
  have hd := mem_natToChars_isDigit n '\n' h
  simp at hd

theorem newline_not_mem_entryLine (n : Nat) (apa : List Char)
    (hapa : ('\n' : Char) ∉ apa) : ('\n' : Char) ∉ entryLine n apa := by
  intro h
  unfold entryLine at h
  simp only [List.mem_append] at h
  rcases h with ((((h | h) | h) | h) | h) | h
  · revert h
    decide
  · exact newline_not_mem_natToChars n h
  · revert h
    decide
  · exact newline_not_mem_natToChars n h
  · revert h
    decide
  · exact hapa h

theorem anchorEntry_eq_entryLine (n : Nat) (apa : List Char) :
    anchorEntry n (some apa) = entryLine n apa ++ [('\n' : Char)] := by
  unfold anchorEntry entryLine
  have hnl : (("\n".toList) : List Char) = [('\n' : Char)] := by decide
  rw [hnl]

theorem splitOnChar_append (sep : Char) :
    ∀ (a b : List Char), sep ∉ a →
      splitOnChar sep (a ++ sep :: b) = a :: splitOnChar sep b := by
  intro a
  induction a with
  | nil =>
    intro b _
    simp [splitOnChar]
  | cons c a' ih =>
    intro b hmem
    have hc : ¬ c = sep := fun h => hmem (by simp [h])
    have ha' : sep ∉ a' := fun h => hmem (List.mem_cons_of_mem c h)
    have hsplit := ih b ha'
    simp only [List.cons_append, splitOnChar, if_neg hc, List.append_eq, hsplit]

theorem sourcesLines (fetch : Url → List Char) :
    ∀ (us : List Url) (n : Nat),
      (∀ u ∈ us, ('\n' : Char) ∉ completionApa fetch u) →
      splitOnChar '\n'
          (((charEntries fetch us n).map (fun p => anchorEntry p.2.number p.2.apa)).flatten)
        = (charEntries fetch us n).map
            (fun p => entryLine p.2.number (completionApa fetch p.1)) ++ [[]] := by
  intro us
  induction us with
  | nil =>
    intro n _
    simp [charEntries, splitOnChar]
  | cons u rest ih =>
    intro n hapa
    simp only [charEntries, List.map_cons, List.flatten_cons]
    rw [anchorEntry_eq_entryLine]
    have hnm : ('\n' : Char) ∉ entryLine n (completionApa fetch u) :=
      newline_not_mem_entryLine n _ (hapa u (List.mem_cons_self u rest))
    rw [List.append_assoc, List.singleton_append, splitOnChar_append '\n' _ _ hnm,
      ih (n + 1) (fun v hv => hapa v (List.mem_cons_of_mem u hv))]
    rfl

/-! ## Claims -/

/-- C1: the resolver assigns each unique URL of the document a 1-based
number in order of first appearance among the marker occurrences; the
numbers of the resolved entry list are exactly those fixed by `mkEntries`
before any fetch result is consulted and form the contiguous sequence
`1..N` for `N` the count of unique URLs, independently of the fetch
completion order `order` and of the fetch results themselves; the unique
URL list is duplicate-free and covers every marker occurrence's URL. -/
theorem C1_stable_numbering (content : List Char) (order : List Url) (fetch : Url → List Char) :
    ((resolveEntries (uniqueUrls ((findIter content).map MatchRec.url)) order fetch).map
        (fun p => (p.1, p.2.number))
      = (mkEntries (uniqueUrls ((findIter content).map MatchRec.url)) 1).map
          (fun p => (p.1, p.2.number)))
    ∧ (mkEntries (uniqueUrls ((findIter content).map MatchRec.url)) 1).map
        (fun p => p.2.number)
        = List.range' 1 (uniqueUrls ((findIter content).map MatchRec.url)).length
    ∧ (uniqueUrls ((findIter content).map MatchRec.url)).Nodup
    ∧ ∀ m ∈ findIter content, m.url ∈ uniqueUrls ((findIter content).map MatchRec.url) :=
  ⟨resolve_number_eq_mk fetch _ order, mkEntries_number _ 1, uniqueUrls_nodup _,
    findIter_url_mem content⟩

/-- Witness for C1 at a concrete two-source document with a repeated URL:
the numbers assigned are exactly `[1, 2]`. -/
theorem C1_stable_numbering_witness :
    (mkEntries (uniqueUrls ((findIter
          (("x ([A](u1)) y ([B](u2)) z ([A](u1))".toList))).map MatchRec.url)) 1).map
        (fun p => p.2.number)
      = List.range' 1 (uniqueUrls ((findIter
          (("x ([A](u1)) y ([B](u2)) z ([A](u1))".toList))).map MatchRec.url)).length :=
  (C1_stable_numbering (("x ([A](u1)) y ([B](u2)) z ([A](u1))".toList)) []
    (fun _ => [])).2.1

/-- C2: with every unique URL resolved, the backward replacement loop
(`for match in reversed(matches)`, splicing over each match's exact
half-open span) produces precisely the canonical form in which every
marker's span is replaced by the reference token of its URL's number and
all text outside the marker spans is untouched, with no replacement
shifting any other occurrence. -/
theorem C2_span_exact_rewrite (content : List Char) (order : List Url)
    (fetch : Url → List Char)
    (hsub : ∀ u ∈ uniqueUrls ((findIter content).map MatchRec.url), u ∈ order) :
    rewriteInline
        (resolveEntries (uniqueUrls ((findIter content).map MatchRec.url)) order fetch)
        (findIter content) content
      = spliced content
          (tokenOccs (uniqueUrls ((findIter content).map MatchRec.url)) (findIter content))
          0 := by
  rw [resolveEntries_char fetch _ order hsub]
  exact rewriteInline_spliced fetch _ content (findIter content) (findIter_url_mem content)
    (findIter_chained content)

/-- Witness for C2 at a document with three markers of differing label and
URL lengths (one URL repeated) and a permuted completion order. -/
theorem C2_span_exact_rewrite_witness :
    rewriteInline
        (resolveEntries (uniqueUrls ((findIter
            (("a ([X](u1)) bb ([YY](u22)) ccc ([X](u1)) d".toList))).map MatchRec.url))
          [("u22".toList), ("u1".toList)] (fun _ => ("C".toList)))
        (findIter (("a ([X](u1)) bb ([YY](u22)) ccc ([X](u1)) d".toList)))
        (("a ([X](u1)) bb ([YY](u22)) ccc ([X](u1)) d".toList))
      = spliced (("a ([X](u1)) bb ([YY](u22)) ccc ([X](u1)) d".toList))
          (tokenOccs (uniqueUrls ((findIter
              (("a ([X](u1)) bb ([YY](u22)) ccc ([X](u1)) d".toList))).map MatchRec.url))
            (findIter (("a ([X](u1)) bb ([YY](u22)) ccc ([X](u1)) d".toList))))
          0 :=
  C2_span_exact_rewrite (("a ([X](u1)) bb ([YY](u22)) ccc ([X](u1)) d".toList))
    [("u22".toList), ("u1".toList)] (fun _ => ("C".toList)) (by decide)

/-- C3: for a document with at least one marker, the output document
replaces every marker by its numbered reference token (linking to anchor
`source-N`) and ends with a Sources section holding exactly one anchored
entry per unique URL, listed in ascending number order; the numbers are
exactly `1..N` for `N` the count of unique URLs (not the count of marker
occurrences), and every entry carries a terminal citation. -/
theorem C3_sources_terminal (content : List Char) (order : List Url)
    (fetch : Url → List Char) (hne : findIter content ≠ [])
    (hsub : ∀ u ∈ uniqueUrls ((findIter content).map MatchRec.url), u ∈ order) :
    ∃ entries : List (Url × Entry),
      reformatMarkdown true content order fetch
        = some (rstripWs (spliced content
              (tokenOccs (uniqueUrls ((findIter content).map MatchRec.url))
                (findIter content)) 0)
            ++ (("\n\n# Sources\n\n".toList))
            ++ (entries.map (fun p => anchorEntry p.2.number p.2.apa)).flatten)
      ∧ entries.map Prod.fst = uniqueUrls ((findIter content).map MatchRec.url)
      ∧ entries.length = (uniqueUrls ((findIter content).map MatchRec.url)).length
      ∧ entries.map (fun p => p.2.number)
          = List.range' 1 (uniqueUrls ((findIter content).map MatchRec.url)).length
      ∧ ∀ p ∈ entries, p.2.apa = some (completionApa fetch p.1) := by
  refine ⟨charEntries fetch (uniqueUrls ((findIter content).map MatchRec.url)) 1,
    ?_, ?_, ?_, ?_, ?_⟩
  · rw [reformatMarkdown_char content order fetch hne hsub]
    unfold sourcesSection
    rw [sortByNumber_charEntries, List.append_assoc]
  · exact charEntries_fst fetch _ 1
  · exact charEntries_length fetch _ 1
  · exact charEntries_number fetch _ 1
  · exact charEntries_apa fetch _ 1

/-- Witness for C3 at a concrete document with three markers over two
unique URLs. -/
theorem C3_sources_terminal_witness :
    ∃ entries : List (Url × Entry),
      reformatMarkdown true (("x ([A](u1)) y ([B](u2)) z ([A](u1))".toList))
          [("u2".toList), ("u1".toList)]
          (fun u => if u = ("u1".toList) then ("Cite-A".toList) else ("Cite-B".toList))
        = some (rstripWs (spliced (("x ([A](u1)) y ([B](u2)) z ([A](u1))".toList))
              (tokenOccs (uniqueUrls ((findIter
                  (("x ([A](u1)) y ([B](u2)) z ([A](u1))".toList))).map MatchRec.url))
                (findIter (("x ([A](u1)) y ([B](u2)) z ([A](u1))".toList)))) 0)
            ++ (("\n\n# Sources\n\n".toList))
            ++ (entries.map (fun p => anchorEntry p.2.number p.2.apa)).flatten)
      ∧ entries.map Prod.fst = uniqueUrls ((findIter
            (("x ([A](u1)) y ([B](u2)) z ([A](u1))".toList))).map MatchRec.url)
      ∧ entries.length = (uniqueUrls ((findIter
            (("x ([A](u1)) y ([B](u2)) z ([A](u1))".toList))).map MatchRec.url)).length
      ∧ entries.map (fun p => p.2.number)
          = List.range' 1 (uniqueUrls ((findIter
              (("x ([A](u1)) y ([B](u2)) z ([A](u1))".toList))).map MatchRec.url)).length
      ∧ ∀ p ∈ entries, p.2.apa = some (completionApa
            (fun u => if u = ("u1".toList) then ("Cite-A".toList) else ("Cite-B".toList)) p.1) :=
  C3_sources_terminal (("x ([A](u1)) y ([B](u2)) z ([A](u1))".toList))
    [("u2".toList), ("u1".toList)]
    (fun u => if u = ("u1".toList) then ("Cite-A".toList) else ("Cite-B".toList))
    (by decide) (by decide)

/-- C7: a document containing zero markers is a recognized empty-result
terminal state: `reformat_markdown` returns without writing any output
(modelled by `none`), leaving the input untouched, for any key
configuration, completion order and fetch behaviour. -/
theorem C7_no_markers (hasKey : Bool) (content : List Char) (order : List Url)
    (fetch : Url → List Char) (h : findIter content = []) :
    reformatMarkdown hasKey content order fetch = none := by
  unfold reformatMarkdown
  cases hasKey
  · rfl
  · rw [if_pos rfl, if_pos h]

/-- Witness for C7 at a concrete marker-free document. -/
theorem C7_no_markers_witness :
    reformatMarkdown true (("plain prose, [a link](u) but no marker".toList)) []
        (fun _ => []) = none :=
  C7_no_markers true (("plain prose, [a link](u) but no marker".toList)) []
    (fun _ => []) (by decide)

theorem append_left_ne_nil {a : List Char} (b : List Char) (ha : a ≠ []) : a ++ b ≠ [] :=
  fun h => ha (List.append_eq_nil.mp h).1

/-- C4: with every fetch outcome provided by `responses`, the resolver
gives every unique URL a terminal citation equal to a function of that
URL's own response alone; a failing response for `u` (raised exception,
cache error, non-success status, or malformed shape) turns only `u`'s
citation into the matching human-readable placeholder embedding the URL
(and, for HTTP failures, the reason), while the entries of all other URLs
are unchanged under any change of `u`'s fetch result, and resolution still
terminates with a citation for every URL. -/
theorem C4_per_url_failure (us order : List Url) (responses : Url → ApiOutcome)
    (fetch : Url → List Char) (u : Url)
    (hf : ∀ w, fetch w = getApaCitation true w (responses w))
    (hsub : ∀ w ∈ us, w ∈ order) (_hu : u ∈ us) :
    (∀ w ∈ us, findEntry (resolveEntries us order fetch) w
        = some ⟨numberOf us w, some (completionApa fetch w)⟩)
    ∧ (∀ (fetch' : Url → List Char), (∀ w, ¬ w = u → fetch' w = fetch w) →
        ∀ w ∈ us, ¬ w = u →
          findEntry (resolveEntries us order fetch') w
            = findEntry (resolveEntries us order fetch) w)
    ∧ ((responses u = ApiOutcome.raised ∨ responses u = ApiOutcome.cacheError) →
        completionApa fetch u
          = (("[APA generation error for URL: ".toList)) ++ u ++ (("]".toList)))
    ∧ (∀ (status : Nat) (body : RespBody), ¬ status = 200 →
        responses u = ApiOutcome.resp status body →
        completionApa fetch u
          = (("[APA generation failed for URL: ".toList)) ++ u ++ ((" - ".toList))
              ++ reasonOf status body ++ (("]".toList)))
    ∧ (∀ err, (responses u = ApiOutcome.resp 200 (RespBody.json none err)
          ∨ responses u = ApiOutcome.resp 200 (RespBody.json (some []) err)) →
        completionApa fetch u
          = (("[APA generation failed for URL: ".toList)) ++ u ++ (("]".toList))) := by
  have hterm : ∀ (g : Url → List Char), ∀ w ∈ us,
      findEntry (resolveEntries us order g) w
        = some ⟨numberOf us w, some (completionApa g w)⟩ := by
    intro g w hw
    rw [resolveEntries_char g us order hsub, findEntry_charEntries g us 1 w hw]
    have hn : 1 + idxOf us w = numberOf us w := by
      unfold numberOf
      omega
    rw [hn]
  refine ⟨hterm fetch, ?_, ?_, ?_, ?_⟩
  · intro fetch' heq w hw hwu
    rw [hterm fetch' w hw, hterm fetch w hw]
    unfold completionApa
    rw [heq w hwu]
  · intro h
    have hfu : fetch u
        = (("[APA generation error for URL: ".toList)) ++ u ++ (("]".toList)) := by
      rcases h with h | h <;> rw [hf u, h] <;> rfl
    unfold completionApa
    rw [hfu, if_neg (append_left_ne_nil _ (append_left_ne_nil _ (by decide)))]
  · intro status body h200 hresp
    have hbody : getApaBody u (ApiOutcome.resp status body)
        = Except.ok ((("[APA generation failed for URL: ".toList)) ++ u ++ ((" - ".toList))
            ++ reasonOf status body ++ (("]".toList))) := by
      simp only [getApaBody]
      rw [if_neg h200]
      cases body with
      | badJson => rfl
      | json choices err =>
        cases err with
        | none => rfl
        | some e => rfl
    have hfu : fetch u
        = (("[APA generation failed for URL: ".toList)) ++ u ++ ((" - ".toList))
            ++ reasonOf status body ++ (("]".toList)) := by
      rw [hf u, hresp]
      unfold getApaCitation
      rw [if_pos rfl, hbody]
    unfold completionApa
    rw [hfu, if_neg (append_left_ne_nil _ (append_left_ne_nil _ (append_left_ne_nil _
      (append_left_ne_nil _ (by decide)))))]
  · intro err h
    have hfu : fetch u
        = (("[APA generation failed for URL: ".toList)) ++ u ++ (("]".toList)) := by
      rcases h with h | h <;> rw [hf u, h] <;> rfl
    unfold completionApa
    rw [hfu, if_neg (append_left_ne_nil _ (append_left_ne_nil _ (by decide)))]

/-- Witness for C4: with URL `u1` raising and `u2` answering normally, the
resolver records exactly the error placeholder for `u1`. -/
theorem C4_per_url_failure_witness :
    completionApa
        (fun w => getApaCitation true w
          (if w = ("u1".toList) then ApiOutcome.raised
           else ApiOutcome.resp 200 (RespBody.json (some [some (("[[[Cite]]]".toList))]) none)))
        (("u1".toList))
      = (("[APA generation error for URL: ".toList)) ++ (("u1".toList)) ++ (("]".toList)) :=
  (C4_per_url_failure [("u1".toList), ("u2".toList)] [("u2".toList), ("u1".toList)]
    (fun w =>
      if w = ("u1".toList) then ApiOutcome.raised
      else ApiOutcome.resp 200 (RespBody.json (some [some (("[[[Cite]]]".toList))]) none))
    (fun w => getApaCitation true w
      (if w = ("u1".toList) then ApiOutcome.raised
       else ApiOutcome.resp 200 (RespBody.json (some [some (("[[[Cite]]]".toList))]) none)))
    (("u1".toList)) (fun _ => rfl) (by decide) (by decide)).2.2.1 (Or.inl (by decide))

theorem cacheLookup_storeResult_ne (key k : CacheKey) (v : ApiOutcome)
    (cache : List (CacheKey × ApiOutcome)) (h : ¬ key = k) :
    cacheLookup (storeResult key v cache) k = cacheLookup cache k := by
  unfold storeResult
  by_cases hE : isException v = true
  · rw [if_pos hE]
  · rw [if_neg hE]
    show (if key = k then some v else cacheLookup cache k) = cacheLookup cache k
    rw [if_neg h]

theorem runCalls_cached (net : Nat → ApiOutcome) (k : CacheKey) (v : ApiOutcome) :
    ∀ (keys : List CacheKey) (cache : List (CacheKey × ApiOutcome)) (t : Nat),
      cacheLookup cache k = some v →
      ∀ e ∈ runCalls net keys cache t, e.1 = k → e.2.1 = v ∧ e.2.2 = false := by
  intro keys
  induction keys with
  | nil =>
    intro cache t hc e he
    simp [runCalls] at he
  | cons key rest ih =>
    intro cache t hc e he hk
    rw [runCalls] at he
    cases hck : cacheLookup cache key with
    | some w =>
      rw [hck] at he
      simp only [Option.elim] at he
      rcases List.mem_cons.mp he with h | h
      · subst h
        simp only at hk
        subst hk
        rw [hck] at hc
        exact ⟨Option.some.inj hc, rfl⟩
      · exact ih cache t hc e h hk
    | none =>
      rw [hck] at he
      simp only [Option.elim] at he
      rcases List.mem_cons.mp he with h | h
      · exfalso
        subst h
        simp only at hk
        subst hk
        rw [hck] at hc
        exact Option.noConfusion hc
      · have hkk : ¬ key = k := by
          intro hkeq
          subst hkeq
          rw [hck] at hc
          exact Option.noConfusion hc
        have hc2 : cacheLookup (storeResult key (net t) cache) k = some v := by
          rw [cacheLookup_storeResult_ne key k (net t) cache hkk]
          exact hc
        exact ih (storeResult key (net t) cache) (t + 1) hc2 e h hk

theorem respNetCountK_cons (k key : CacheKey) (v : ApiOutcome) (b : Bool)
    (tr : List (CacheKey × ApiOutcome × Bool)) :
    respNetCountK k ((key, v, b) :: tr)
      = (if key = k ∧ b = true ∧ isException v = false then 1 else 0)
          + respNetCountK k tr := by
  unfold respNetCountK
  rw [List.filter_cons]
  by_cases hk : key = k
  · cases b with
    | true =>
      cases hE : isException v with
      | true => simp [hk, hE]
      | false =>
        simp [hk, hE]
        omega
    | false => simp [hk]
  · simp [hk]

theorem respNetCountK_zero (k : CacheKey) (tr : List (CacheKey × ApiOutcome × Bool))
    (h : ∀ e ∈ tr, e.1 = k → e.2.2 = false) : respNetCountK k tr = 0 := by
  unfold respNetCountK
  rw [List.length_eq_zero, List.filter_eq_nil_iff]
  intro e he
  by_cases hk : e.1 = k
  · have hb := h e he hk
    simp [hk, hb]
  · simp [hk]

theorem runCalls_fresh (net : Nat → ApiOutcome) (k : CacheKey) :
    ∀ (keys : List CacheKey) (cache : List (CacheKey × ApiOutcome)) (t : Nat),
      cacheLookup cache k = none →
      respNetCountK k (runCalls net keys cache t) ≤ 1
      ∧ (∀ e ∈ runCalls net keys cache t, e.1 = k → e.2.2 = false →
          isException e.2.1 = false)
      ∧ ∀ e1 ∈ runCalls net keys cache t, ∀ e2 ∈ runCalls net keys cache t,
          e1.1 = k → e2.1 = k → e1.2.2 = false → e2.2.2 = false → e1.2.1 = e2.2.1 := by
  intro keys
  induction keys with
  | nil =>
    intro cache t _
    refine ⟨by simp [runCalls, respNetCountK], ?_, ?_⟩
    · intro e he
      simp [runCalls] at he
    · intro e1 he1
      simp [runCalls] at he1
  | cons key rest ih =>
    intro cache t hc
    rw [runCalls]
    cases hck : cacheLookup cache key with
    | some w =>
      simp only [Option.elim]
      have hkk : ¬ key = k := by
        intro hkeq
        subst hkeq
        rw [hck] at hc
        exact Option.noConfusion hc
      obtain ⟨ihc, ihn, ihe⟩ := ih cache t hc
      refine ⟨?_, ?_, ?_⟩
      · rw [respNetCountK_cons]
        rw [if_neg (fun hh => hkk hh.1)]
        simpa using ihc
      · intro e he hk hb
        rcases List.mem_cons.mp he with h | h
        · exfalso
          subst h
          exact hkk hk
        · exact ihn e h hk hb
      · intro e1 he1 e2 he2 hk1 hk2 hb1 hb2
        rcases List.mem_cons.mp he1 with h1 | h1
        · exfalso
          subst h1
          exact hkk hk1
        · rcases List.mem_cons.mp he2 with h2 | h2
          · exfalso
            subst h2
            exact hkk hk2
          · exact ihe e1 h1 e2 h2 hk1 hk2 hb1 hb2
    | none =>
      simp only [Option.elim]
      by_cases hkk : key = k
      · subst hkk
        cases hE : isException (net t) with
        | true =>
          have hstore : storeResult key (net t) cache = cache := by
            unfold storeResult
            rw [if_pos hE]
          rw [hstore]
          obtain ⟨ihc, ihn, ihe⟩ := ih cache (t + 1) hc
          refine ⟨?_, ?_, ?_⟩
          · rw [respNetCountK_cons]
            rw [if_neg (fun hh => by rw [hE] at hh; exact Bool.noConfusion hh.2.2)]
            simpa using ihc
          · intro e he hk hb
            rcases List.mem_cons.mp he with h | h
            · exfalso
              subst h
              exact Bool.noConfusion hb
            · exact ihn e h hk hb
          · intro e1 he1 e2 he2 hk1 hk2 hb1 hb2
            rcases List.mem_cons.mp he1 with h1 | h1
            · exfalso
              subst h1
              exact Bool.noConfusion hb1
            · rcases List.mem_cons.mp he2 with h2 | h2
              · exfalso
                subst h2
                exact Bool.noConfusion hb2
              · exact ihe e1 h1 e2 h2 hk1 hk2 hb1 hb2
        | false =>
          have hstore : storeResult key (net t) cache = (key, net t) :: cache := by
            unfold storeResult
            rw [if_neg (by simp [hE])]
          rw [hstore]
          have hc2 : cacheLookup ((key, net t) :: cache) key = some (net t) := by
            unfold cacheLookup
            rw [if_pos rfl]
          have hcached :=
            runCalls_cached net key (net t) rest ((key, net t) :: cache) (t + 1) hc2
          refine ⟨?_, ?_, ?_⟩
          · rw [respNetCountK_cons,
              respNetCountK_zero key _ (fun e he hk => (hcached e he hk).2)]
            rw [if_pos ⟨rfl, rfl, hE⟩]
          · intro e he hk hb
            rcases List.mem_cons.mp he with h | h
            · exfalso
              subst h
              exact Bool.noConfusion hb
            · rw [(hcached e h hk).1]
              exact hE
          · intro e1 he1 e2 he2 hk1 hk2 hb1 hb2
            rcases List.mem_cons.mp he1 with h1 | h1
            · exfalso
              subst h1
              exact Bool.noConfusion hb1
            · rcases List.mem_cons.mp he2 with h2 | h2
              · exfalso
                subst h2
                exact Bool.noConfusion hb2
              · rw [(hcached e1 h1 hk1).1, (hcached e2 h2 hk2).1]
      · have hc2 : cacheLookup (storeResult key (net t) cache) k = none := by
          rw [cacheLookup_storeResult_ne key k (net t) cache hkk]
          exact hc
        obtain ⟨ihc, ihn, ihe⟩ := ih (storeResult key (net t) cache) (t + 1) hc2
        refine ⟨?_, ?_, ?_⟩
        · rw [respNetCountK_cons]
          rw [if_neg (fun hh => hkk hh.1)]
          simpa using ihc
        · intro e he hk hb
          rcases List.mem_cons.mp he with h | h
          · exfalso
            subst h
            exact hkk hk
          · exact ihn e h hk hb
        · intro e1 he1 e2 he2 hk1 hk2 hb1 hb2
          rcases List.mem_cons.mp he1 with h1 | h1
          · exfalso
            subst h1
            exact hkk hk1
          · rcases List.mem_cons.mp he2 with h2 | h2
            · exfalso
              subst h2
              exact hkk hk2
            · exact ihe e1 h1 e2 h2 hk1 hk2 hb1 hb2

/-- C5 counterexample: `joblib.Memory` persists nothing when the wrapped
call raises, so two identical fetches of one (url, prompt) pair whose
first call raises issue two network requests — the external call does not
happen at most once per pair. -/
theorem C5_counterexample :
    netCountK ⟨("k".toList), ("u".toList), ("p".toList)⟩
        (runCalls (fun _ => ApiOutcome.raised)
          [⟨("k".toList), ("u".toList), ("p".toList)⟩,
           ⟨("k".toList), ("u".toList), ("p".toList)⟩] [] 0) = 2
    ∧ (runCalls (fun _ => ApiOutcome.raised)
          [⟨("k".toList), ("u".toList), ("p".toList)⟩,
           ⟨("k".toList), ("u".toList), ("p".toList)⟩] [] 0).map (fun e => e.2.2)
        = [true, true] := by
  refine ⟨by decide, by decide⟩

/-- C5 (amended): through the durable memoization of
`_call_perplexity_api`, a key whose response has been written to the cache
is always answered from the cache with the stored value and no network
request, through any further sequence of calls; for a key not yet cached,
at most one network call in any call sequence returns a response (the one
whose result gets written — a call that raises persists nothing and may be
retried), every cache hit serves a previously returned response rather
than an exception, and all cache hits for the key return the same result.
The initial `cache` is arbitrary, so the statement also covers resuming
from the store persisted by an earlier run. -/
theorem C5_cache_write_once (net : Nat → ApiOutcome) (keys : List CacheKey)
    (cache : List (CacheKey × ApiOutcome)) (t : Nat) (k : CacheKey) :
    (∀ v, cacheLookup cache k = some v →
      ∀ e ∈ runCalls net keys cache t, e.1 = k → e.2.1 = v ∧ e.2.2 = false)
    ∧ (cacheLookup cache k = none →
      respNetCountK k (runCalls net keys cache t) ≤ 1
      ∧ (∀ e ∈ runCalls net keys cache t, e.1 = k → e.2.2 = false →
          isException e.2.1 = false)
      ∧ ∀ e1 ∈ runCalls net keys cache t, ∀ e2 ∈ runCalls net keys cache t,
          e1.1 = k → e2.1 = k → e1.2.2 = false → e2.2.2 = false → e1.2.1 = e2.2.1) :=
  ⟨fun v hv => runCalls_cached net k v keys cache t hv,
   fun hn => runCalls_fresh net k keys cache t hn⟩

/-- Witness for C5 (amended): the same key called twice on an empty cache
against a network answering with distinct responses: at most one
response-returning network call, and all cache hits agree and are
responses. -/
theorem C5_cache_write_once_witness :
    respNetCountK ⟨("k".toList), ("u".toList), ("p".toList)⟩
        (runCalls (fun n => ApiOutcome.resp n RespBody.badJson)
          [⟨("k".toList), ("u".toList), ("p".toList)⟩,
           ⟨("k".toList), ("u".toList), ("p".toList)⟩] [] 0) ≤ 1
    ∧ (∀ e ∈ runCalls (fun n => ApiOutcome.resp n RespBody.badJson)
          [⟨("k".toList), ("u".toList), ("p".toList)⟩,
           ⟨("k".toList), ("u".toList), ("p".toList)⟩] [] 0,
        e.1 = ⟨("k".toList), ("u".toList), ("p".toList)⟩ → e.2.2 = false →
          isException e.2.1 = false)
    ∧ ∀ e1 ∈ runCalls (fun n => ApiOutcome.resp n RespBody.badJson)
          [⟨("k".toList), ("u".toList), ("p".toList)⟩,
           ⟨("k".toList), ("u".toList), ("p".toList)⟩] [] 0,
        ∀ e2 ∈ runCalls (fun n => ApiOutcome.resp n RespBody.badJson)
          [⟨("k".toList), ("u".toList), ("p".toList)⟩,
           ⟨("k".toList), ("u".toList), ("p".toList)⟩] [] 0,
          e1.1 = ⟨("k".toList), ("u".toList), ("p".toList)⟩ →
          e2.1 = ⟨("k".toList), ("u".toList), ("p".toList)⟩ →
          e1.2.2 = false → e2.2.2 = false → e1.2.1 = e2.2.1 :=
  (C5_cache_write_once (fun n => ApiOutcome.resp n RespBody.badJson)
    [⟨("k".toList), ("u".toList), ("p".toList)⟩,
     ⟨("k".toList), ("u".toList), ("p".toList)⟩] [] 0
    ⟨("k".toList), ("u".toList), ("p".toList)⟩).2 rfl

/-- C6 counterexample: a cache-layer I/O error raised inside the cached
call does not propagate out of `get_apa_citation`: the bare
`except Exception` converts it to the same generic per-URL placeholder as
any network exception, so it is returned normally and is not
distinguishable from an ordinary fetch failure. -/
theorem C6_counterexample :
    getApaCitation true (("u".toList)) ApiOutcome.cacheError
        = (("[APA generation error for URL: u]".toList))
    ∧ getApaCitation true (("u".toList)) ApiOutcome.cacheError
        = getApaCitation true (("u".toList)) ApiOutcome.raised := by
  constructor
  · decide
  · decide

/-- C6 (amended): `get_apa_citation` never raises to its caller: any
exception escaping the `try` block — cache-layer I/O errors included, as
the second conjunct records — is converted by the `except Exception`
handler into the descriptive error placeholder embedding the URL, which is
returned as an ordinary string result. -/
theorem C6_never_throws (url : Url) (r : ApiOutcome)
    (hfail : getApaBody url r = Except.error ()) :
    getApaCitation true url r
        = (("[APA generation error for URL: ".toList)) ++ url ++ (("]".toList))
    ∧ getApaBody url ApiOutcome.cacheError = Except.error () := by
  constructor
  · unfold getApaCitation
    rw [if_pos rfl, hfail]
  · rfl

/-- Witness for C6 at the cache-error outcome itself. -/
theorem C6_never_throws_witness :
    getApaCitation true (("u".toList)) ApiOutcome.cacheError
        = (("[APA generation error for URL: ".toList)) ++ (("u".toList)) ++ (("]".toList))
    ∧ getApaBody (("u".toList)) ApiOutcome.cacheError = Except.error () :=
  C6_never_throws (("u".toList)) ApiOutcome.cacheError rfl

/-- C8 counterexample: the extracted citation `"5"` carries neither a list
marker nor a numeric prefix, yet the post-processing step does not return
it unchanged: the numeric-prefix conjunction indexes position 1 of the
one-character string and raises. -/
theorem C8_counterexample :
    postProcess (("5".toList)) = Except.error ()
    ∧ ¬ postProcess (("5".toList)) = Except.ok (("5".toList))
    ∧ listMarkerStrip (("5".toList)) = ("5".toList) := by
  have h1 : postProcess (("5".toList)) = Except.error () := by rfl
  refine ⟨h1, ?_, by decide⟩
  intro h
  rw [h1] at h
  exact Except.noConfusion h

/-- C8 (amended): the post-processing step strips one leading `"- "` or
`"* "` marker and one leading single-digit `"N. "` prefix, and returns a
citation without those prefixes unchanged — except that a citation which,
after the list-marker strip, is a lone digit or a digit followed only by
`'.'` makes the prefix check index out of bounds and raise (so the
surrounding call returns the error placeholder instead). -/
theorem C8_strip_behaviour (c : List Char) : postProcess c = specPostProcess c := by
  unfold postProcess listMarkerStrip specPostProcess
  generalize (if (("- ".toList)).isPrefixOf c || (("* ".toList)).isPrefixOf c
      then c.drop 2 else c) = c1
  cases c1 with
  | nil => rfl
  | cons d c2 =>
    cases c2 with
    | nil =>
      by_cases hd : d.isDigit <;> simp [numMarkerStrip, hd]
    | cons e c3 =>
      cases c3 with
      | nil =>
        by_cases hd : d.isDigit <;> by_cases he : e = '.' <;>
          simp [numMarkerStrip, hd, he]
      | cons f rest =>
        by_cases hd : d.isDigit <;> by_cases he : e = '.' <;> by_cases hf : f = ' ' <;>
          simp [numMarkerStrip, hd, he, hf]

/-- C9 counterexample: a Sources section with two entries separates them
with a single newline, not a blank line: the text after the
`"\n\n# Sources\n\n"` heading block contains no `"\n\n"` at all. -/
theorem C9_counterexample :
    sourcesSection
        [((("a".toList) : Url), ⟨1, some (("A".toList))⟩),
         ((("b".toList) : Url), ⟨2, some (("B".toList))⟩)]
      = (("\n\n# Sources\n\n<a id=\"source-1\"></a>1. A\n<a id=\"source-2\"></a>2. B\n".toList))
    ∧ findSub (("\n\n".toList))
        ((sourcesSection
          [((("a".toList) : Url), ⟨1, some (("A".toList))⟩),
           ((("b".toList) : Url), ⟨2, some (("B".toList))⟩)]).drop 13) = none := by
  refine ⟨by decide, by decide⟩

/-- C9 (amended): the output ends with a Sources section headed
`# Sources` (one blank line before and after the heading block), whose
body is one newline-terminated line per unique URL — consecutive entries
separated by a single newline, not a blank line — each line an HTML anchor
with id `source-N` followed by `N. <citation>`. -/
theorem C9_sources_format (content : List Char) (order : List Url) (fetch : Url → List Char)
    (hne : findIter content ≠ [])
    (hsub : ∀ u ∈ uniqueUrls ((findIter content).map MatchRec.url), u ∈ order)
    (hapa : ∀ u ∈ uniqueUrls ((findIter content).map MatchRec.url),
      ('\n' : Char) ∉ completionApa fetch u) :
    ∃ body : List Char,
      reformatMarkdown true content order fetch
        = some (rstripWs (spliced content
              (tokenOccs (uniqueUrls ((findIter content).map MatchRec.url))
                (findIter content)) 0)
            ++ (("\n\n# Sources\n\n".toList)) ++ body)
      ∧ splitOnChar '\n' body
          = (charEntries fetch (uniqueUrls ((findIter content).map MatchRec.url)) 1).map
              (fun p => entryLine p.2.number (completionApa fetch p.1)) ++ [[]] := by
  refine ⟨((charEntries fetch (uniqueUrls ((findIter content).map MatchRec.url)) 1).map
      (fun p => anchorEntry p.2.number p.2.apa)).flatten, ?_, ?_⟩
  · rw [reformatMarkdown_char content order fetch hne hsub]
    unfold sourcesSection
    rw [sortByNumber_charEntries, List.append_assoc]
  · exact sourcesLines fetch _ 1 hapa

/-- Witness for C9 (amended) at a concrete two-source document. -/
theorem C9_sources_format_witness :
    ∃ body : List Char,
      reformatMarkdown true (("x ([A](u1)) y ([B](u2))".toList))
          [("u1".toList), ("u2".toList)] (fun _ => ("C".toList))
        = some (rstripWs (spliced (("x ([A](u1)) y ([B](u2))".toList))
              (tokenOccs (uniqueUrls ((findIter
                  (("x ([A](u1)) y ([B](u2))".toList))).map MatchRec.url))
                (findIter (("x ([A](u1)) y ([B](u2))".toList)))) 0)
            ++ (("\n\n# Sources\n\n".toList)) ++ body)
      ∧ splitOnChar '\n' body
          = (charEntries (fun _ => ("C".toList))
                (uniqueUrls ((findIter (("x ([A](u1)) y ([B](u2))".toList))).map MatchRec.url))
                1).map
              (fun p => entryLine p.2.number (completionApa (fun _ => ("C".toList)) p.1))
            ++ [[]] :=
  C9_sources_format (("x ([A](u1)) y ([B](u2))".toList)) [("u1".toList), ("u2".toList)]
    (fun _ => ("C".toList)) (by decide) (by decide) (by decide)

/-- C10: an HTTP-200 response whose extracted, whitespace-stripped
citation is a single digit character makes the numeric-prefix check index
position 1 of a length-1 string; the raised `IndexError` is caught by the
handler and the client returns the generic error placeholder embedding the
URL instead of the one-character citation. -/
theorem C10_single_digit_citation (url : Url) (raw : List Char) (d : Char)
    (hc : extractedCitation raw = [d]) (hd : d.isDigit = true) :
    getApaCitation true url (ApiOutcome.resp 200 (RespBody.json (some [some raw]) none))
      = (("[APA generation error for URL: ".toList)) ++ url ++ (("]".toList)) := by
  have hcc : citationOfContent raw = Except.error () := by
    unfold citationOfContent postProcess listMarkerStrip
    rw [hc]
    have h1 : (("- ".toList) : List Char) = ['-', ' '] := by decide
    have h2 : (("* ".toList) : List Char) = ['*', ' '] := by decide
    rw [h1, h2]
    simp [List.isPrefixOf, numMarkerStrip, hd]
  have hbody : getApaBody url (ApiOutcome.resp 200 (RespBody.json (some [some raw]) none))
      = Except.error () := by
    have h0 : getApaBody url (ApiOutcome.resp 200 (RespBody.json (some [some raw]) none))
        = citationOfContent raw := rfl
    rw [h0, hcc]
  unfold getApaCitation
  rw [if_pos rfl, hbody]

/-- Witness for C10 at the response body `"[[[5]]]"`. -/
theorem C10_single_digit_citation_witness :
    getApaCitation true (("u".toList))
        (ApiOutcome.resp 200 (RespBody.json (some [some (("[[[5]]]".toList))]) none))
      = (("[APA generation error for URL: ".toList)) ++ (("u".toList)) ++ (("]".toList)) :=
  C10_single_digit_citation (("u".toList)) (("[[[5]]]".toList)) '5' (by decide) (by decide)

end DRCleaner
